/-
  Verification of the VoiceInk native audio/transcription core.

  Shallow embedding of the C++ sources under src/VoiceInkWindows/src/native/:
  * CircularBuffer        (audio-recorder/wasapi_recorder.cpp)
  * WASAPIRecorder        (wasapi_recorder.cpp)
  * WhisperTranscriber    (whisper-binding/whisper_transcriber.cpp)
  * WhisperTranscription  (whisper_transcription.cpp)

  Machine floats in the source are modelled as exact rationals; byte values as
  naturals; the std::map containers as association lists with insert-or-assign
  semantics.  Clock readings and random values are taken as explicit inputs.
-/
import Mathlib

/-! ## CircularBuffer (audio-recorder/wasapi_recorder.cpp, lines 8-61)

The C++ class holds `std::vector<uint8_t> buffer_`, cursors `head_`, `tail_`
and the constructed `size_`.  The byte array is modelled as a total function
`Nat → Nat` (indices outside `[0, size)` are never touched by well-formed
states). -/

structure CircularBuffer where
  buffer : Nat → Nat
  head : Nat
  tail : Nat
  size : Nat

/-- `CircularBuffer::CircularBuffer(size_t size)`: zero-filled storage, both
cursors at 0. -/
def mkCircularBuffer (size : Nat) : CircularBuffer :=
  { buffer := fun _ => 0, head := 0, tail := 0, size := size }

/-- One iteration of the `for` loop in `CircularBuffer::Write`: store the byte
at `head_`, advance `head_` modulo `size_`, and if the buffer became full move
`tail_` forward (overwriting the oldest byte). -/
def CircularBuffer.writeByte (cb : CircularBuffer) (b : Nat) : CircularBuffer :=
  let buffer := fun i => if i = cb.head then b else cb.buffer i
  let head := (cb.head + 1) % cb.size
  if head = cb.tail then
    { cb with buffer := buffer, head := head, tail := (cb.tail + 1) % cb.size }
  else
    { cb with buffer := buffer, head := head }

/-- `CircularBuffer::Write(const void* data, size_t size)`: fails (returns
`false`, no mutation) when `size > size_`; otherwise writes the bytes one by
one. -/
def CircularBuffer.Write (cb : CircularBuffer) (data : List Nat) :
    Bool × CircularBuffer :=
  if data.length > cb.size then (false, cb)
  else (true, data.foldl CircularBuffer.writeByte cb)

/-- `CircularBuffer::Read(void* data, size_t size)`: pops bytes from `tail_`
until `size` bytes were delivered or the buffer is empty; returns the bytes
read (the C++ returns their count and stores them into `data`). -/
def CircularBuffer.Read (cb : CircularBuffer) : Nat → List Nat × CircularBuffer
  | 0 => ([], cb)
  | n + 1 =>
    if cb.tail = cb.head then ([], cb)
    else
      let b := cb.buffer cb.tail
      let cb' := { cb with tail := (cb.tail + 1) % cb.size }
      let rest := CircularBuffer.Read cb' n
      (b :: rest.1, rest.2)

/-- `CircularBuffer::AvailableData()`. -/
def CircularBuffer.AvailableData (cb : CircularBuffer) : Nat :=
  if cb.head ≥ cb.tail then cb.head - cb.tail
  else cb.size - cb.tail + cb.head

/-- `CircularBuffer::Clear()`. -/
def CircularBuffer.Clear (cb : CircularBuffer) : CircularBuffer :=
  { cb with head := 0, tail := 0 }

/-- Well-formedness of a buffer state: both cursors in range, positive size.
Holds for every state reachable from the constructor when `0 < size`. -/
def CircularBuffer.WF (cb : CircularBuffer) : Prop :=
  0 < cb.size ∧ cb.head < cb.size ∧ cb.tail < cb.size

/-- The unread bytes, oldest first: the ring segment from `tail_` to `head_`. -/
def CircularBuffer.contents (cb : CircularBuffer) : List Nat :=
  (List.range cb.AvailableData).map (fun i => cb.buffer ((cb.tail + i) % cb.size))

/-! Client-visible operation traces over a circular buffer. -/

inductive BufOp where
  | write (data : List Nat)
  | read (maxLen : Nat)

/-- Run one client operation; the second component is the list of bytes the
operation returned to the caller (empty for writes). -/
def CircularBuffer.runOp (cb : CircularBuffer) (op : BufOp) :
    CircularBuffer × List Nat :=
  match op with
  | .write data => ((cb.Write data).2, [])
  | .read n => let r := cb.Read n; (r.2, r.1)

/-- Run a trace of operations, collecting each operation's returned bytes. -/
def CircularBuffer.runTrace (cb : CircularBuffer) :
    List BufOp → CircularBuffer × List (List Nat)
  | [] => (cb, [])
  | op :: ops =>
    let r := cb.runOp op
    let rest := r.1.runTrace ops
    (rest.1, r.2 :: rest.2)

/-- All bytes submitted by the write operations of a trace, in order. -/
def writtenBytes (ops : List BufOp) : List Nat :=
  ops.foldr (fun op acc => match op with
    | .write data => data ++ acc
    | .read _ => acc) []

/-- Total number of bytes submitted by the write operations of a trace. -/
def totalWritten (ops : List BufOp) : Nat :=
  (writtenBytes ops).length

/-- Concatenation of the byte lists returned by the reads of a trace. -/
def concatAll (ls : List (List Nat)) : List Nat :=
  ls.foldr (fun a b => a ++ b) []

/-- The ideal unbounded FIFO queue the specification describes: writes append,
reads take from the front. -/
def idealOp (q : List Nat) (op : BufOp) : List Nat × List Nat :=
  match op with
  | .write data => (q ++ data, [])
  | .read n => (q.drop n, q.take n)

/-- Run a trace on the ideal FIFO queue. -/
def idealTrace (q : List Nat) : List BufOp → List Nat × List (List Nat)
  | [] => (q, [])
  | op :: ops =>
    let r := idealOp q op
    let rest := idealTrace r.1 ops
    (rest.1, r.2 :: rest.2)

/-! ### Ring-buffer lemmas -/

theorem CircularBuffer.avail_lt (cb : CircularBuffer) (hwf : cb.WF) :
    cb.AvailableData < cb.size := by
  obtain ⟨hs, hh, ht⟩ := hwf
  simp only [CircularBuffer.AvailableData]
  split_ifs <;> omega

theorem CircularBuffer.avail_zero_iff (cb : CircularBuffer) (hwf : cb.WF) :
    cb.AvailableData = 0 ↔ cb.head = cb.tail := by
  obtain ⟨hs, hh, ht⟩ := hwf
  simp only [CircularBuffer.AvailableData]
  split_ifs <;> omega

theorem CircularBuffer.head_formula (cb : CircularBuffer) (hwf : cb.WF) :
    cb.head = (cb.tail + cb.AvailableData) % cb.size := by
  obtain ⟨hs, hh, ht⟩ := hwf
  simp only [CircularBuffer.AvailableData]
  split_ifs with h
  · rw [show cb.tail + (cb.head - cb.tail) = cb.head from by omega,
      Nat.mod_eq_of_lt hh]
  · rw [show cb.tail + (cb.size - cb.tail + cb.head) = cb.size + cb.head from by omega,
      Nat.add_mod_left, Nat.mod_eq_of_lt hh]

theorem addMod_inj {n t a b : Nat} (ha : a < n) (hb : b < n)
    (h : (t + a) % n = (t + b) % n) : a = b := by
  have h2 : a ≡ b [MOD n] := Nat.ModEq.add_left_cancel' t h
  have h3 : a % n = b % n := h2
  rwa [Nat.mod_eq_of_lt ha, Nat.mod_eq_of_lt hb] at h3

theorem CircularBuffer.contents_length (cb : CircularBuffer) :
    cb.contents.length = cb.AvailableData := by
  simp [CircularBuffer.contents]

theorem CircularBuffer.contents_getElem (cb : CircularBuffer) (i : Nat)
    (h : i < cb.contents.length) :
    cb.contents[i] = cb.buffer ((cb.tail + i) % cb.size) := by
  simp [CircularBuffer.contents]

theorem CircularBuffer.writeByte_WF (cb : CircularBuffer) (b : Nat) (hwf : cb.WF) :
    (cb.writeByte b).WF := by
  obtain ⟨hs, hh, ht⟩ := hwf
  simp only [CircularBuffer.writeByte]
  split_ifs <;>
    exact ⟨hs, Nat.mod_lt _ hs, by first | exact Nat.mod_lt _ hs | exact ht⟩

theorem CircularBuffer.avail_head_succ (cb : CircularBuffer) (hwf : cb.WF) :
    CircularBuffer.AvailableData { cb with head := (cb.head + 1) % cb.size } =
      if cb.AvailableData = cb.size - 1 then 0 else cb.AvailableData + 1 := by
  obtain ⟨hs, hh, ht⟩ := hwf
  rcases Nat.lt_or_ge (cb.head + 1) cb.size with h1 | h1
  · rw [show (cb.head + 1) % cb.size = cb.head + 1 from Nat.mod_eq_of_lt h1]
    simp only [CircularBuffer.AvailableData]
    split_ifs <;> omega
  · have h2 : cb.head + 1 = cb.size := by omega
    rw [h2, Nat.mod_self]
    simp only [CircularBuffer.AvailableData]
    split_ifs <;> omega

theorem CircularBuffer.avail_tail_succ (cb : CircularBuffer) (hwf : cb.WF)
    (h : cb.AvailableData ≠ 0) :
    CircularBuffer.AvailableData { cb with tail := (cb.tail + 1) % cb.size } =
      cb.AvailableData - 1 := by
  obtain ⟨hs, hh, ht⟩ := hwf
  rcases Nat.lt_or_ge (cb.tail + 1) cb.size with h1 | h1
  · rw [show (cb.tail + 1) % cb.size = cb.tail + 1 from Nat.mod_eq_of_lt h1]
    simp only [CircularBuffer.AvailableData] at h ⊢
    split_ifs at h ⊢ <;> omega
  · have h2 : cb.tail + 1 = cb.size := by omega
    rw [h2, Nat.mod_self]
    simp only [CircularBuffer.AvailableData] at h ⊢
    split_ifs at h ⊢ <;> omega

theorem CircularBuffer.contents_tail_succ (cb : CircularBuffer) (hwf : cb.WF)
    (h : cb.AvailableData ≠ 0) :
    CircularBuffer.contents { cb with tail := (cb.tail + 1) % cb.size } =
      cb.contents.drop 1 := by
  apply List.ext_getElem
  · simp [CircularBuffer.contents_length, cb.avail_tail_succ hwf h]
  · intro i h1 h2
    rw [CircularBuffer.contents_getElem, List.getElem_drop,
      CircularBuffer.contents_getElem]
    have : ((cb.tail + 1) % cb.size + i) % cb.size = (cb.tail + (1 + i)) % cb.size := by
      rw [Nat.mod_add_mod, Nat.add_assoc]
    simp only [this]

theorem CircularBuffer.contents_first (cb : CircularBuffer) (hwf : cb.WF)
    (h : cb.AvailableData ≠ 0) :
    cb.contents.getD 0 0 = cb.buffer cb.tail := by
  have hl : 0 < cb.contents.length := by rw [cb.contents_length]; omega
  rw [List.getD_eq_getElem _ _ hl, CircularBuffer.contents_getElem]
  simp [Nat.mod_eq_of_lt hwf.2.2]

theorem CircularBuffer.head_succ_eq_tail_iff (cb : CircularBuffer) (hwf : cb.WF) :
    ((cb.head + 1) % cb.size = cb.tail) ↔ cb.AvailableData = cb.size - 1 := by
  obtain ⟨hs, hh, ht⟩ := hwf
  rcases Nat.lt_or_ge (cb.head + 1) cb.size with h1 | h1
  · rw [show (cb.head + 1) % cb.size = cb.head + 1 from Nat.mod_eq_of_lt h1]
    simp only [CircularBuffer.AvailableData]
    split_ifs <;> omega
  · have h2 : cb.head + 1 = cb.size := by omega
    rw [h2, Nat.mod_self]
    simp only [CircularBuffer.AvailableData]
    split_ifs <;> omega

theorem CircularBuffer.writeByte_notfull (cb : CircularBuffer) (b : Nat)
    (hwf : cb.WF) (h : cb.AvailableData < cb.size - 1) :
    (cb.writeByte b).contents = cb.contents ++ [b] ∧
    (cb.writeByte b).AvailableData = cb.AvailableData + 1 := by
  obtain ⟨hs, hh, ht⟩ := hwf
  have hcond : ¬ ((cb.head + 1) % cb.size = cb.tail) := by
    rw [cb.head_succ_eq_tail_iff ⟨hs, hh, ht⟩]; omega
  have hstep : cb.writeByte b =
      { cb with buffer := fun i => if i = cb.head then b else cb.buffer i,
                head := (cb.head + 1) % cb.size } := by
    simp only [CircularBuffer.writeByte, if_neg hcond]
  have havail : (cb.writeByte b).AvailableData = cb.AvailableData + 1 := by
    rw [hstep]
    rcases Nat.lt_or_ge (cb.head + 1) cb.size with h1 | h1
    · simp only [CircularBuffer.AvailableData] at h ⊢
      rw [Nat.mod_eq_of_lt h1]
      split_ifs at h ⊢ <;> omega
    · have h2 : cb.head + 1 = cb.size := by omega
      simp only [CircularBuffer.AvailableData] at h ⊢
      rw [h2, Nat.mod_self]
      split_ifs at h ⊢ <;> omega
  refine ⟨?_, havail⟩
  apply List.ext_getElem
  · simp [CircularBuffer.contents_length, havail]
  · intro i h1 h2
    have hi : i < cb.AvailableData + 1 := by
      rw [CircularBuffer.contents_length, havail] at h1; exact h1
    rw [CircularBuffer.contents_getElem]
    simp only [hstep]
    rcases Nat.lt_or_ge i cb.AvailableData with hc | hc
    · have hlen : i < cb.contents.length := by
        rw [CircularBuffer.contents_length]; exact hc
      rw [List.getElem_append_left hlen, CircularBuffer.contents_getElem]
      have hne : (cb.tail + i) % cb.size ≠ cb.head := by
        intro heq
        rw [cb.head_formula ⟨hs, hh, ht⟩] at heq
        have := addMod_inj (n := cb.size) (t := cb.tail)
          (by omega) (cb.avail_lt ⟨hs, hh, ht⟩) heq
        omega
      rw [if_neg hne]
    · have hc2 : i = cb.AvailableData := by omega
      have heq : (cb.tail + i) % cb.size = cb.head := by
        rw [hc2]; exact (cb.head_formula ⟨hs, hh, ht⟩).symm
      rw [if_pos heq]
      have hlen : cb.contents.length ≤ i := by
        rw [CircularBuffer.contents_length]; omega
      rw [List.getElem_append_right hlen, List.getElem_singleton]

theorem CircularBuffer.writeByte_full (cb : CircularBuffer) (b : Nat)
    (hwf : cb.WF) (h : cb.AvailableData = cb.size - 1) :
    (cb.writeByte b).contents = (cb.contents ++ [b]).drop 1 ∧
    (cb.writeByte b).AvailableData = cb.size - 1 := by
  obtain ⟨hs, hh, ht⟩ := hwf
  have hcond : (cb.head + 1) % cb.size = cb.tail :=
    (cb.head_succ_eq_tail_iff ⟨hs, hh, ht⟩).mpr h
  have hstep : cb.writeByte b =
      { cb with buffer := fun i => if i = cb.head then b else cb.buffer i,
                head := (cb.head + 1) % cb.size, tail := (cb.tail + 1) % cb.size } := by
    simp only [CircularBuffer.writeByte, if_pos hcond]
  have havail : (cb.writeByte b).AvailableData = cb.size - 1 := by
    rw [hstep]
    rcases Nat.lt_or_ge (cb.tail + 1) cb.size with h1 | h1
    · simp only [CircularBuffer.AvailableData]
      rw [hcond, Nat.mod_eq_of_lt h1]
      simp only [CircularBuffer.AvailableData] at h
      split_ifs at h ⊢ <;> omega
    · have h2 : cb.tail + 1 = cb.size := by omega
      simp only [CircularBuffer.AvailableData]
      rw [hcond, h2, Nat.mod_self]
      simp only [CircularBuffer.AvailableData] at h
      split_ifs at h ⊢ <;> omega
  refine ⟨?_, havail⟩
  apply List.ext_getElem
  · simp only [CircularBuffer.contents_length, havail, List.length_drop,
      List.length_append, List.length_cons, List.length_nil]
    omega
  · intro i h1 h2
    have hi : i < cb.size - 1 := by
      rw [CircularBuffer.contents_length, havail] at h1; exact h1
    rw [List.getElem_drop, CircularBuffer.contents_getElem]
    simp only [hstep]
    have hslot : ((cb.tail + 1) % cb.size + i) % cb.size =
        (cb.tail + (1 + i)) % cb.size := by
      rw [Nat.mod_add_mod, Nat.add_assoc]
    rw [hslot]
    rcases Nat.lt_or_ge (1 + i) cb.AvailableData with hc | hc
    · have hlen : 1 + i < cb.contents.length := by
        rw [CircularBuffer.contents_length]; exact hc
      rw [List.getElem_append_left hlen, CircularBuffer.contents_getElem]
      have hne : (cb.tail + (1 + i)) % cb.size ≠ cb.head := by
        intro heq
        rw [cb.head_formula ⟨hs, hh, ht⟩] at heq
        have := addMod_inj (n := cb.size) (t := cb.tail)
          (by omega) (cb.avail_lt ⟨hs, hh, ht⟩) heq
        omega
      rw [if_neg hne]
    · have hc2 : 1 + i = cb.AvailableData := by omega
      have heq : (cb.tail + (1 + i)) % cb.size = cb.head := by
        rw [hc2]; exact (cb.head_formula ⟨hs, hh, ht⟩).symm
      rw [if_pos heq]
      have hlen : cb.contents.length ≤ 1 + i := by
        rw [CircularBuffer.contents_length]; omega
      rw [List.getElem_append_right hlen, List.getElem_singleton]

theorem CircularBuffer.writeByte_size (cb : CircularBuffer) (b : Nat) :
    (cb.writeByte b).size = cb.size := by
  simp only [CircularBuffer.writeByte]
  split_ifs <;> rfl

theorem CircularBuffer.foldl_writeByte_spec (data : List Nat) :
    ∀ cb : CircularBuffer, cb.WF →
    (data.foldl CircularBuffer.writeByte cb).WF ∧
    (data.foldl CircularBuffer.writeByte cb).size = cb.size ∧
    (data.foldl CircularBuffer.writeByte cb).AvailableData =
      min (cb.AvailableData + data.length) (cb.size - 1) ∧
    (data.foldl CircularBuffer.writeByte cb).contents =
      (cb.contents ++ data).drop (cb.AvailableData + data.length + 1 - cb.size) := by
  induction data with
  | nil =>
    intro cb hwf
    have hlt := cb.avail_lt hwf
    refine ⟨hwf, rfl, by simp; omega, ?_⟩
    rw [show cb.AvailableData + List.length [] + 1 - cb.size = 0 by simp; omega]
    simp
  | cons b rest ih =>
    intro cb hwf
    have hlt := cb.avail_lt hwf
    have hwf1 := cb.writeByte_WF b hwf
    have hsz1 := cb.writeByte_size b
    obtain ⟨hwfF, hszF, havF, hcF⟩ := ih (cb.writeByte b) hwf1
    simp only [List.foldl_cons]
    rcases Nat.lt_or_ge cb.AvailableData (cb.size - 1) with hc | hc
    · obtain ⟨hco, hav⟩ := cb.writeByte_notfull b hwf hc
      refine ⟨hwfF, by rw [hszF, hsz1], ?_, ?_⟩
      · rw [havF, hav, hsz1, List.length_cons]
        omega
      · rw [hcF, hco, hav, hsz1, List.length_cons, List.append_assoc,
          List.singleton_append]
        congr 1
        omega
    · have hceq : cb.AvailableData = cb.size - 1 := by omega
      obtain ⟨hco, hav⟩ := cb.writeByte_full b hwf hceq
      refine ⟨hwfF, by rw [hszF, hsz1], ?_, ?_⟩
      · rw [havF, hav, hsz1, List.length_cons]
        omega
      · rw [hcF, hco, hav, hsz1, List.length_cons]
        have h1 : (1 : Nat) ≤ (cb.contents ++ [b]).length := by
          simp only [List.length_append, List.length_singleton]
          omega
        rw [← List.drop_append_of_le_length h1, List.drop_drop,
          List.append_assoc, List.singleton_append]
        congr 1
        omega

theorem CircularBuffer.Write_spec (cb : CircularBuffer) (data : List Nat)
    (hwf : cb.WF) (hlen : data.length ≤ cb.size) :
    (cb.Write data).1 = true ∧ ((cb.Write data).2).WF ∧
    ((cb.Write data).2).size = cb.size ∧
    ((cb.Write data).2).contents =
      (cb.contents ++ data).drop (cb.AvailableData + data.length + 1 - cb.size) ∧
    ((cb.Write data).2).AvailableData =
      min (cb.AvailableData + data.length) (cb.size - 1) := by
  obtain ⟨hwfF, hszF, havF, hcF⟩ := CircularBuffer.foldl_writeByte_spec data cb hwf
  simp only [CircularBuffer.Write, gt_iff_lt, if_neg (by omega : ¬ cb.size < data.length)]
  exact ⟨trivial, hwfF, hszF, hcF, havF⟩

theorem CircularBuffer.Read_spec : ∀ (n : Nat) (cb : CircularBuffer), cb.WF →
    (cb.Read n).1 = cb.contents.take n ∧ ((cb.Read n).2).WF ∧
    ((cb.Read n).2).size = cb.size ∧
    ((cb.Read n).2).contents = cb.contents.drop n
  | 0, cb, hwf => by
    simp [CircularBuffer.Read, hwf]
  | n + 1, cb, hwf => by
    by_cases hth : cb.tail = cb.head
    · have hav : cb.AvailableData = 0 := (cb.avail_zero_iff hwf).mpr hth.symm
      have hc : cb.contents = [] := by
        have h := cb.contents_length
        rw [hav] at h
        exact List.length_eq_zero.mp h
      simp [CircularBuffer.Read, hth, hc, hwf]
    · have hav : cb.AvailableData ≠ 0 := fun h0 => hth (((cb.avail_zero_iff hwf).mp h0).symm)
      have hwf1 : CircularBuffer.WF { cb with tail := (cb.tail + 1) % cb.size } :=
        ⟨hwf.1, hwf.2.1, Nat.mod_lt _ hwf.1⟩
      have hc1 := cb.contents_tail_succ hwf hav
      obtain ⟨h1, h2, h3, h4⟩ :=
        CircularBuffer.Read_spec n { cb with tail := (cb.tail + 1) % cb.size } hwf1
      have hne : cb.contents ≠ [] := by
        intro h0
        have h := cb.contents_length
        rw [h0] at h
        simp at h
        omega
      obtain ⟨c, cs, hcc⟩ := List.exists_cons_of_ne_nil hne
      have hbt : cb.buffer cb.tail = c := by
        have h := cb.contents_first hwf hav
        rw [hcc] at h
        simpa using h.symm
      simp only [CircularBuffer.Read, if_neg hth]
      rw [hc1] at h1 h4
      refine ⟨?_, h2, by rw [h3], ?_⟩
      · rw [h1, hbt, hcc]
        simp
      · rw [h4, hcc]
        simp

theorem writtenBytes_write_cons (d : List Nat) (ops : List BufOp) :
    writtenBytes (.write d :: ops) = d ++ writtenBytes ops := rfl

theorem writtenBytes_read_cons (n : Nat) (ops : List BufOp) :
    writtenBytes (.read n :: ops) = writtenBytes ops := rfl

theorem totalWritten_write_cons (d : List Nat) (ops : List BufOp) :
    totalWritten (.write d :: ops) = d.length + totalWritten ops := by
  simp [totalWritten, writtenBytes_write_cons]

theorem totalWritten_read_cons (n : Nat) (ops : List BufOp) :
    totalWritten (.read n :: ops) = totalWritten ops := rfl

theorem concatAll_cons (a : List Nat) (ls : List (List Nat)) :
    concatAll (a :: ls) = a ++ concatAll ls := rfl

theorem mkCircularBuffer_WF (size : Nat) (h : 0 < size) :
    (mkCircularBuffer size).WF := ⟨h, h, h⟩

theorem mkCircularBuffer_contents (size : Nat) :
    (mkCircularBuffer size).contents = [] := by
  simp [CircularBuffer.contents, CircularBuffer.AvailableData, mkCircularBuffer]

theorem CircularBuffer.runOp_pres (cb : CircularBuffer) (op : BufOp) (hwf : cb.WF) :
    ((cb.runOp op).1).WF ∧ ((cb.runOp op).1).size = cb.size := by
  match op with
  | .write data =>
    simp only [CircularBuffer.runOp, CircularBuffer.Write]
    split_ifs
    · exact ⟨hwf, rfl⟩
    · obtain ⟨h1, h2, _, _⟩ := CircularBuffer.foldl_writeByte_spec data cb hwf
      exact ⟨h1, h2⟩
  | .read n =>
    obtain ⟨_, h2, h3, _⟩ := CircularBuffer.Read_spec n cb hwf
    exact ⟨h2, h3⟩

theorem CircularBuffer.runTrace_pres : ∀ (ops : List BufOp) (cb : CircularBuffer),
    cb.WF → ((cb.runTrace ops).1).WF ∧ ((cb.runTrace ops).1).size = cb.size
  | [], cb, hwf => ⟨hwf, rfl⟩
  | op :: ops, cb, hwf => by
    obtain ⟨h1, h2⟩ := cb.runOp_pres op hwf
    obtain ⟨h3, h4⟩ := CircularBuffer.runTrace_pres ops (cb.runOp op).1 h1
    exact ⟨h3, by rw [CircularBuffer.runTrace]; rw [h4, h2]⟩

theorem ringTrace_sim : ∀ (ops : List BufOp) (cb : CircularBuffer),
    cb.WF → cb.contents.length + totalWritten ops < cb.size →
    (cb.runTrace ops).2 = (idealTrace cb.contents ops).2 ∧
    ((cb.runTrace ops).1).contents = (idealTrace cb.contents ops).1
  | [], cb, hwf, hlt => by simp [CircularBuffer.runTrace, idealTrace]
  | .write data :: ops, cb, hwf, hlt => by
    rw [totalWritten_write_cons] at hlt
    have hlen : data.length ≤ cb.size := by omega
    obtain ⟨hsucc, hwf2, hsz2, hcon2, _⟩ := cb.Write_spec data hwf hlen
    have hcount : cb.AvailableData + data.length + 1 - cb.size = 0 := by
      have hl := cb.contents_length
      omega
    rw [hcount, List.drop_zero] at hcon2
    obtain ⟨ih1, ih2⟩ := ringTrace_sim ops (cb.Write data).2 hwf2 (by
      rw [hcon2, hsz2, List.length_append]
      have hl := cb.contents_length
      omega)
    rw [hcon2] at ih1 ih2
    constructor
    · show [] :: ((cb.Write data).2.runTrace ops).2 =
        [] :: (idealTrace (cb.contents ++ data) ops).2
      rw [ih1]
    · show ((cb.Write data).2.runTrace ops).1.contents =
        (idealTrace (cb.contents ++ data) ops).1
      rw [ih2]
  | .read n :: ops, cb, hwf, hlt => by
    rw [totalWritten_read_cons] at hlt
    obtain ⟨hout, hwf2, hsz2, hcon2⟩ := CircularBuffer.Read_spec n cb hwf
    obtain ⟨ih1, ih2⟩ := ringTrace_sim ops (cb.Read n).2 hwf2 (by
      rw [hcon2, hsz2, List.length_drop]
      omega)
    rw [hcon2] at ih1 ih2
    constructor
    · show (cb.Read n).1 :: ((cb.Read n).2.runTrace ops).2 =
        cb.contents.take n :: (idealTrace (cb.contents.drop n) ops).2
      rw [ih1, hout]
    · show ((cb.Read n).2.runTrace ops).1.contents =
        (idealTrace (cb.contents.drop n) ops).1
      rw [ih2]

theorem idealTrace_flatten : ∀ (ops : List BufOp) (q : List Nat),
    concatAll (idealTrace q ops).2 ++ (idealTrace q ops).1 = q ++ writtenBytes ops
  | [], q => by simp [idealTrace, concatAll, writtenBytes]
  | .write d :: ops, q => by
    have ih := idealTrace_flatten ops (q ++ d)
    show concatAll ([] :: (idealTrace (q ++ d) ops).2) ++ (idealTrace (q ++ d) ops).1 =
      q ++ writtenBytes (.write d :: ops)
    rw [concatAll_cons, writtenBytes_write_cons, List.nil_append, ih,
      List.append_assoc]
  | .read n :: ops, q => by
    have ih := idealTrace_flatten ops (q.drop n)
    show concatAll (q.take n :: (idealTrace (q.drop n) ops).2) ++
        (idealTrace (q.drop n) ops).1 = q ++ writtenBytes (.read n :: ops)
    rw [concatAll_cons, writtenBytes_read_cons, List.append_assoc, ih,
      ← List.append_assoc, List.take_append_drop]

/-- C1 counterexample: with capacity 2, writing exactly 2 bytes (total written =
capacity) and then reading returns only the second byte — the first byte was
silently dropped when the write made the buffer exactly full, so the claim
"total written ≤ capacity implies reads return exactly the bytes written in
FIFO order" is false as stated. -/
theorem C1_counterexample :
    totalWritten [BufOp.write [1, 2], BufOp.read 2] ≤ 2 ∧
    ((mkCircularBuffer 2).runTrace [BufOp.write [1, 2], BufOp.read 2]).2 ≠
      (idealTrace [] [BufOp.write [1, 2], BufOp.read 2]).2 := by
  constructor
  · decide
  · decide

/-- C1 (amended): for every trace of writes and reads whose total written byte
count is strictly less than the constructed capacity, every read returns
exactly the bytes written, in FIFO order (the buffer behaves as the ideal
unbounded FIFO queue, and the bytes returned by the reads followed by the
still-unread bytes are exactly the written bytes in order); a successful write
that overflows the usable space silently drops the oldest unread bytes,
keeping only the newest `capacity - 1`. -/
theorem C1_ringBuffer_fifo (size : Nat) (ops : List BufOp)
    (hpos : 0 < size) (hlt : totalWritten ops < size) :
    ((mkCircularBuffer size).runTrace ops).2 = (idealTrace [] ops).2 ∧
    concatAll (((mkCircularBuffer size).runTrace ops).2) ++
      (((mkCircularBuffer size).runTrace ops).1).contents = writtenBytes ops ∧
    (∀ (cb : CircularBuffer) (data : List Nat), cb.WF → data.length ≤ cb.size →
      ((cb.Write data).2).contents =
        (cb.contents ++ data).drop (cb.AvailableData + data.length + 1 - cb.size)) := by
  have hwf := mkCircularBuffer_WF size hpos
  have hc := mkCircularBuffer_contents size
  obtain ⟨h1, h2⟩ := ringTrace_sim ops (mkCircularBuffer size) hwf (by
    rw [hc]; simpa using hlt)
  rw [hc] at h1 h2
  refine ⟨h1, ?_, ?_⟩
  · rw [h1, h2]
    have := idealTrace_flatten ops []
    simpa using this
  · intro cb data hwfc hlen
    exact (cb.Write_spec data hwfc hlen).2.2.2.1

/-- Witness for C1: a concrete trace within the amended bound, evaluated. -/
theorem C1_ringBuffer_fifo_witness :
    0 < 4 ∧ totalWritten [BufOp.write [5, 6, 7], BufOp.read 2] < 4 ∧
    ((mkCircularBuffer 4).runTrace [BufOp.write [5, 6, 7], BufOp.read 2]).2 =
      (idealTrace [] [BufOp.write [5, 6, 7], BufOp.read 2]).2 :=
  ⟨by decide, by decide,
    (C1_ringBuffer_fifo 4 [BufOp.write [5, 6, 7], BufOp.read 2]
      (by decide) (by decide)).1⟩

/-- C10: the usable capacity is one byte less than the constructed size —
`AvailableData` never exceeds `size - 1` after any trace of operations, and a
successful write that would make the buffer exactly full advances the read
cursor, discarding exactly the oldest unread byte even though the total bytes
present never exceeded the capacity. -/
theorem C10_usable_capacity :
    (∀ (size : Nat) (ops : List BufOp), 0 < size →
      ((mkCircularBuffer size).runTrace ops).1.AvailableData ≤ size - 1) ∧
    (∀ (cb : CircularBuffer) (data : List Nat), cb.WF →
      cb.AvailableData + data.length = cb.size →
      (cb.Write data).1 = true ∧
      ((cb.Write data).2).contents = (cb.contents ++ data).drop 1) := by
  constructor
  · intro size ops hpos
    obtain ⟨hwfF, hszF⟩ :=
      CircularBuffer.runTrace_pres ops (mkCircularBuffer size) (mkCircularBuffer_WF size hpos)
    have := ((mkCircularBuffer size).runTrace ops).1.avail_lt hwfF
    rw [hszF, show (mkCircularBuffer size).size = size from rfl] at this
    omega
  · intro cb data hwf heq
    have hlen : data.length ≤ cb.size := by omega
    obtain ⟨hsucc, _, _, hcon, _⟩ := cb.Write_spec data hwf hlen
    refine ⟨hsucc, ?_⟩
    rw [hcon]
    congr 1
    have := cb.avail_lt hwf
    omega

/-- Witness for C10 at concrete inputs: a 1-byte buffer accepts a 1-byte write
(total written = capacity) yet ends up empty, and availability stays below
capacity. -/
theorem C10_usable_capacity_witness :
    ((mkCircularBuffer 3).runTrace [BufOp.write [1, 2]]).1.AvailableData ≤ 2 ∧
    ((mkCircularBuffer 1).Write [7]).1 = true ∧
    ((mkCircularBuffer 1).Write [7]).2.contents =
      ((mkCircularBuffer 1).contents ++ [7]).drop 1 :=
  ⟨C10_usable_capacity.1 3 [BufOp.write [1, 2]] (by decide),
    (C10_usable_capacity.2 (mkCircularBuffer 1) [7]
      ⟨by decide, by decide, by decide⟩ (by decide)).1,
    (C10_usable_capacity.2 (mkCircularBuffer 1) [7]
      ⟨by decide, by decide, by decide⟩ (by decide)).2⟩

/-! ## Resampler / normalizer (whisper_transcription.cpp, lines 630-673)

The C++ works on `float`/`double`; the embedding uses exact rationals.  The
local `double ratio = toRate / fromRate` of the source is inlined as the
rational `(toRate : ℚ) / (fromRate : ℚ)`; the `size_t` casts of nonnegative
values are `Nat.floor`. -/

/-- `WhisperTranscription::resampleAudio(audioData, sampleCount, fromRate,
toRate)`: identity at equal rates, otherwise linear-interpolation resampling
with output size `(size_t)(sampleCount * ratio)`. -/
def resampleAudio (audioData : List ℚ) (fromRate toRate : ℕ) : List ℚ :=
  if fromRate = toRate then audioData
  else
    let sampleCount := audioData.length
    let outputSize : ℕ := ⌊(sampleCount : ℚ) * ((toRate : ℚ) / (fromRate : ℚ))⌋₊
    (List.range outputSize).map (fun (i : ℕ) =>
      let sourceIndex : ℚ := (i : ℚ) / ((toRate : ℚ) / (fromRate : ℚ))
      let index : ℕ := ⌊sourceIndex⌋₊
      let fraction : ℚ := sourceIndex - (index : ℚ)
      if index + 1 < sampleCount then
        audioData.getD index 0 * (1 - fraction) + audioData.getD (index + 1) 0 * fraction
      else
        audioData.getD (min index (sampleCount - 1)) 0)

/-- The running `maxAmplitude` fold of `WhisperTranscription::normalizeAudio`. -/
def maxAmplitudeOf (audioData : List ℚ) : ℚ :=
  audioData.foldl (fun m a => max m |a|) 0

/-- `WhisperTranscription::normalizeAudio`: scale by `0.95 / maxAmplitude`
when the peak exceeds 0.95, otherwise return the data unchanged (the source
condition is `maxAmplitude > 0.0f && maxAmplitude > 0.95f`). -/
def normalizeAudio (audioData : List ℚ) : List ℚ :=
  if 0 < maxAmplitudeOf audioData ∧ 19 / 20 < maxAmplitudeOf audioData then
    audioData.map (fun a => a * (19 / 20 / maxAmplitudeOf audioData))
  else audioData

theorem foldl_max_abs_le_init (l : List ℚ) :
    ∀ acc : ℚ, acc ≤ l.foldl (fun m a => max m |a|) acc := by
  induction l with
  | nil => intro acc; simp
  | cons a l ih =>
    intro acc
    calc acc ≤ max acc |a| := le_max_left _ _
    _ ≤ l.foldl (fun m a => max m |a|) (max acc |a|) := ih _

theorem maxAmplitudeOf_nonneg (l : List ℚ) : 0 ≤ maxAmplitudeOf l :=
  foldl_max_abs_le_init l 0

theorem foldl_max_abs_map_mul (s : ℚ) (hs : 0 ≤ s) (l : List ℚ) :
    ∀ acc : ℚ, (l.map (fun a => a * s)).foldl (fun m a => max m |a|) (acc * s) =
      (l.foldl (fun m a => max m |a|) acc) * s := by
  induction l with
  | nil => intro acc; simp
  | cons a l ih =>
    intro acc
    simp only [List.map_cons, List.foldl_cons]
    rw [show max (acc * s) |a * s| = max acc |a| * s by
      rw [abs_mul, abs_of_nonneg hs, max_mul_of_nonneg _ _ hs]]
    exact ih _

theorem maxAmplitudeOf_map_mul (s : ℚ) (hs : 0 ≤ s) (l : List ℚ) :
    maxAmplitudeOf (l.map (fun a => a * s)) = maxAmplitudeOf l * s := by
  have h := foldl_max_abs_map_mul s hs l 0
  rw [zero_mul] at h
  exact h

/-- C6: `normalizeAudio` is idempotent, and a buffer whose peak absolute
amplitude is at most 0.95 is returned unchanged. -/
theorem C6_normalize_idempotent (x : List ℚ) :
    normalizeAudio (normalizeAudio x) = normalizeAudio x ∧
    (maxAmplitudeOf x ≤ 19 / 20 → normalizeAudio x = x) := by
  have hid : ∀ y : List ℚ, maxAmplitudeOf y ≤ 19 / 20 → normalizeAudio y = y := by
    intro y hy
    rw [normalizeAudio, if_neg]
    intro hcon
    exact absurd hcon.2 (not_lt.mpr hy)
  refine ⟨?_, hid x⟩
  by_cases hm : 19 / 20 < maxAmplitudeOf x
  · have hpos : 0 < maxAmplitudeOf x := lt_trans (by norm_num) hm
    have hx : normalizeAudio x =
        x.map (fun a => a * (19 / 20 / maxAmplitudeOf x)) := by
      rw [normalizeAudio, if_pos ⟨hpos, hm⟩]
    have hscale : maxAmplitudeOf (x.map (fun a => a * (19 / 20 / maxAmplitudeOf x))) =
        19 / 20 := by
      rw [maxAmplitudeOf_map_mul _ (by positivity) x]
      field_simp
      ring
    rw [hx, hid _ (le_of_eq hscale)]
  · have hx : normalizeAudio x = x := by
      rw [normalizeAudio, if_neg]
      intro hcon
      exact hm hcon.2
    rw [hx, hx]

/-- Witness for C6: a concrete safe buffer is returned unchanged. -/
theorem C6_normalize_idempotent_witness :
    normalizeAudio [(1 : ℚ) / 2] = [(1 : ℚ) / 2] :=
  (C6_normalize_idempotent [(1 : ℚ) / 2]).2 (by
    norm_num [maxAmplitudeOf, abs_of_nonneg])


theorem resampleAudio_eq_rates (x : List ℚ) (r : ℕ) : resampleAudio x r r = x := by
  simp [resampleAudio]

theorem resampleAudio_ne_rates (x : List ℚ) (fromRate toRate : ℕ)
    (h : ¬ fromRate = toRate) :
    resampleAudio x fromRate toRate =
      (List.range ⌊(x.length : ℚ) * ((toRate : ℚ) / (fromRate : ℚ))⌋₊).map
        (fun i : ℕ =>
          if ⌊(i : ℚ) / ((toRate : ℚ) / (fromRate : ℚ))⌋₊ + 1 < x.length then
            x.getD ⌊(i : ℚ) / ((toRate : ℚ) / (fromRate : ℚ))⌋₊ 0 *
              (1 - ((i : ℚ) / ((toRate : ℚ) / (fromRate : ℚ)) -
                (⌊(i : ℚ) / ((toRate : ℚ) / (fromRate : ℚ))⌋₊ : ℚ))) +
            x.getD (⌊(i : ℚ) / ((toRate : ℚ) / (fromRate : ℚ))⌋₊ + 1) 0 *
              ((i : ℚ) / ((toRate : ℚ) / (fromRate : ℚ)) -
                (⌊(i : ℚ) / ((toRate : ℚ) / (fromRate : ℚ))⌋₊ : ℚ))
          else x.getD (min ⌊(i : ℚ) / ((toRate : ℚ) / (fromRate : ℚ))⌋₊
            (x.length - 1)) 0) := by
  simp only [resampleAudio, if_neg h]

/-- C5: for positive rates, `resampleAudio` produces
`floor(n * toRate / fromRate)` output samples, each the linear interpolation
between the input samples at `floor(sourceIndex)` and `floor(sourceIndex) + 1`
(`sourceIndex = i * fromRate / toRate`) weighted by the fractional part,
falling back to the input's last sample when the upper index is out of
range. -/
theorem C5_resample_spec (x : List ℚ) (fromRate toRate : ℕ)
    (hf : 0 < fromRate) (ht : 0 < toRate) :
    (resampleAudio x fromRate toRate).length = x.length * toRate / fromRate ∧
    ∀ i, i < (resampleAudio x fromRate toRate).length →
      (resampleAudio x fromRate toRate).getD i 0 =
        if ⌊(i : ℚ) * (fromRate : ℚ) / (toRate : ℚ)⌋₊ + 1 < x.length then
          x.getD ⌊(i : ℚ) * (fromRate : ℚ) / (toRate : ℚ)⌋₊ 0 *
            (1 - ((i : ℚ) * (fromRate : ℚ) / (toRate : ℚ) -
              (⌊(i : ℚ) * (fromRate : ℚ) / (toRate : ℚ)⌋₊ : ℚ))) +
          x.getD (⌊(i : ℚ) * (fromRate : ℚ) / (toRate : ℚ)⌋₊ + 1) 0 *
            ((i : ℚ) * (fromRate : ℚ) / (toRate : ℚ) -
              (⌊(i : ℚ) * (fromRate : ℚ) / (toRate : ℚ)⌋₊ : ℚ))
        else x.getD (x.length - 1) 0 := by
  by_cases heq : fromRate = toRate
  · subst heq
    constructor
    · rw [resampleAudio_eq_rates, Nat.mul_div_cancel _ hf]
    · intro i hi
      rw [resampleAudio_eq_rates] at hi ⊢
      have hsi : (i : ℚ) * (fromRate : ℚ) / (fromRate : ℚ) = (i : ℚ) := by
        field_simp
      rw [hsi, Nat.floor_natCast]
      by_cases hb : i + 1 < x.length
      · rw [if_pos hb]
        simp
      · rw [if_neg hb]
        have hieq : i = x.length - 1 := by omega
        rw [hieq]
  · constructor
    · rw [resampleAudio_ne_rates x fromRate toRate heq, List.length_map,
        List.length_range,
        show (x.length : ℚ) * ((toRate : ℚ) / (fromRate : ℚ)) =
          (((x.length * toRate : ℕ) : ℚ) / ((fromRate : ℕ) : ℚ)) from by
            push_cast; ring,
        Nat.floor_div_nat, Nat.floor_natCast]
    · intro i hi
      rw [resampleAudio_ne_rates x fromRate toRate heq] at hi ⊢
      rw [List.length_map, List.length_range] at hi
      rw [List.getD_eq_getElem _ _ (by
        simpa only [List.length_map, List.length_range] using hi)]
      simp only [List.getElem_map, List.getElem_range]
      rw [div_div_eq_mul_div]
      by_cases hb : ⌊(i : ℚ) * (fromRate : ℚ) / (toRate : ℚ)⌋₊ + 1 < x.length
      · rw [if_pos hb, if_pos hb]
      · rw [if_neg hb, if_neg hb,
          min_eq_right (show x.length - 1 ≤
            ⌊(i : ℚ) * (fromRate : ℚ) / (toRate : ℚ)⌋₊ by omega)]

/-- Witness for C5 at a concrete downsampling: 4 samples, 2:1. -/
theorem C5_resample_spec_witness :
    (resampleAudio [(1 : ℚ), 2, 3, 4] 2 1).length = 4 * 1 / 2 :=
  (C5_resample_spec [(1 : ℚ), 2, 3, 4] 2 1 (by decide) (by decide)).1

/-! ## Float→PCM16 conversion
(whisper-binding/whisper_transcriber.cpp, lines 399-409)

`WhisperUtils::FloatToPCM` computes
`static_cast<int16_t>(std::clamp(sample * 32768.0f, -32768.0f, 32767.0f))`.
Multiplication by `32768 = 2^15` is exact in binary floating point, and the
C++ float→integer cast truncates toward zero. -/

/-- Truncation toward zero: the semantics of C++'s float→int conversion. -/
def ratTrunc (q : ℚ) : ℤ :=
  if 0 ≤ q then ⌊q⌋ else ⌈q⌉

/-- One sample of `WhisperUtils::FloatToPCM`:
`static_cast<int16_t>(std::clamp(sample * 32768, -32768, 32767))`. -/
def FloatToPCMSample (sample : ℚ) : ℤ :=
  ratTrunc (max (-32768) (min (sample * 32768) 32767))

/-- `WhisperUtils::FloatToPCM(float_data)`: per-sample conversion in order. -/
def FloatToPCM (float_data : List ℚ) : List ℤ :=
  float_data.map FloatToPCMSample

/-- The conversion the specification describes: clamp, then round to the
*nearest* int16 (this is the spec's wording, not the code's behaviour). -/
def floatToPCMSampleRounded (sample : ℚ) : ℤ :=
  round (max (-32768) (min (sample * 32768) 32767))

/-- C4 counterexample: at input `3/131072` the scaled sample is `0.75`;
rounding to the nearest int16 gives `1`, but the code's `static_cast`
truncates to `0`. -/
theorem C4_counterexample :
    FloatToPCM [3 / 131072] = [0] ∧ floatToPCMSampleRounded (3 / 131072) ≠ 0 := by
  constructor
  · show [FloatToPCMSample (3 / 131072)] = [0]
    rw [FloatToPCMSample, ratTrunc]
    norm_num
  · rw [floatToPCMSampleRounded]
    norm_num [round_eq]

/-- C4 (amended): each output sample is `clamp(f * 32768, -32768, 32767)`
truncated toward zero (not rounded to nearest), and always fits in int16. -/
theorem C4_floatToPcm16 (xs : List ℚ) :
    (FloatToPCM xs).length = xs.length ∧
    (∀ i, i < xs.length →
      (FloatToPCM xs).getD i 0 =
        ratTrunc (max (-32768) (min (xs.getD i 0 * 32768) 32767))) ∧
    (∀ i, i < xs.length →
      -32768 ≤ (FloatToPCM xs).getD i 0 ∧ (FloatToPCM xs).getD i 0 ≤ 32767) := by
  have hlen : (FloatToPCM xs).length = xs.length := by
    simp [FloatToPCM]
  have hval : ∀ i, i < xs.length →
      (FloatToPCM xs).getD i 0 =
        ratTrunc (max (-32768) (min (xs.getD i 0 * 32768) 32767)) := by
    intro i hi
    rw [List.getD_eq_getElem _ _ (by rw [hlen]; exact hi),
      List.getD_eq_getElem _ _ hi]
    simp [FloatToPCM, FloatToPCMSample]
  refine ⟨hlen, hval, ?_⟩
  intro i hi
  rw [hval i hi]
  set v : ℚ := max (-32768) (min (xs.getD i 0 * 32768) 32767) with hv
  have hv1 : (-32768 : ℚ) ≤ v := le_max_left _ _
  have hv2 : v ≤ 32767 := max_le (by norm_num) (min_le_right _ _)
  rw [ratTrunc]
  split_ifs with h0
  · have hlow : (0 : ℤ) ≤ ⌊v⌋ := Int.floor_nonneg.mpr h0
    have hupp : ⌊v⌋ ≤ ⌊(32767 : ℚ)⌋ := Int.floor_le_floor hv2
    have : ⌊(32767 : ℚ)⌋ = 32767 := by norm_num
    omega
  · have hupp : ⌈v⌉ ≤ ⌈(0 : ℚ)⌉ := Int.ceil_le_ceil (le_of_lt (not_le.mp h0))
    have h1 : ⌈(0 : ℚ)⌉ = 0 := by norm_num
    have hlow : ⌈(-32768 : ℚ)⌉ ≤ ⌈v⌉ := Int.ceil_le_ceil hv1
    have h2 : ⌈(-32768 : ℚ)⌉ = -32768 := by norm_cast
    omega

/-- Witness for C4 at a concrete sample. -/
theorem C4_floatToPcm16_witness :
    (FloatToPCM [(1 : ℚ) / 2]).getD 0 0 =
      ratTrunc (max (-32768) (min (([(1 : ℚ) / 2]).getD 0 0 * 32768) 32767)) :=
  (C4_floatToPcm16 [(1 : ℚ) / 2]).2.1 0 (by decide)

/-! ## WhisperTranscriber::Transcribe
(whisper-binding/whisper_transcriber.cpp, lines 203-269)

The opaque model call (`MockWhisper::whisper_full` and the segment getters)
is abstracted as an explicit `WhisperRunOutcome` input; the mock's
`rand()`-based confidence is the `confSample` field.  The second component of
the result records whether `whisper_full` was invoked. -/

structure TranscriptionResultW where
  success : Bool := false
  error_message : String := ""
  text : String := ""
  language : String := ""
  confidence : ℚ := 0
  duration : ℚ := 0
  timestamps : List (ℚ × ℚ) := []

structure WhisperRunOutcome where
  ret : ℤ
  segments : List (Option String × ℤ × ℤ)
  confSample : ℚ

/-- `WhisperTranscriber::InitializeWhisperParams`: assigns fields and returns
`true` unconditionally. -/
def InitializeWhisperParams : Bool := true

/-- `WhisperTranscriber::Transcribe(audio_data, language)`. -/
def Transcribe (model_loaded : Bool) (audio_data : List ℚ) (language : String)
    (outcome : WhisperRunOutcome) : TranscriptionResultW × Bool :=
  if ¬ model_loaded then
    ({ success := false, error_message := "Model not loaded" }, false)
  else if audio_data = [] then
    ({ success := false, error_message := "Empty audio data" }, false)
  else if ¬ InitializeWhisperParams then
    ({ success := false, error_message := "Failed to initialize parameters" }, false)
  else if outcome.ret ≠ 0 then
    ({ success := false,
       error_message := "Transcription failed with error code: " ++ toString outcome.ret },
      true)
  else
    ({ success := true,
       text := String.join (outcome.segments.filterMap (fun s => s.1)),
       timestamps := outcome.segments.filterMap
         (fun s => s.1.map (fun _ => ((s.2.1 : ℚ) / 100, (s.2.2 : ℚ) / 100))),
       language := if language = "auto" then "en" else language,
       confidence := outcome.confSample,
       duration := (audio_data.length : ℚ) / 16000 }, true)

/-- C7: `Transcribe` fails fast — whenever no model is loaded or the sample
buffer is empty, for every input and options, the result has `success = false`
and a nonempty error message, and the model is never invoked. -/
theorem C7_transcribe_failfast (model_loaded : Bool) (audio_data : List ℚ)
    (language : String) (outcome : WhisperRunOutcome)
    (h : model_loaded = false ∨ audio_data = []) :
    (Transcribe model_loaded audio_data language outcome).1.success = false ∧
    (Transcribe model_loaded audio_data language outcome).1.error_message ≠ "" ∧
    (Transcribe model_loaded audio_data language outcome).2 = false := by
  rcases h with h | h
  · subst h
    exact ⟨rfl, by show ("Model not loaded" : String) ≠ ""; decide, rfl⟩
  · subst h
    cases model_loaded
    · exact ⟨rfl, by show ("Model not loaded" : String) ≠ ""; decide, rfl⟩
    · exact ⟨rfl, by show ("Empty audio data" : String) ≠ ""; decide, rfl⟩

/-- Witness for C7: no model loaded, nonempty buffer. -/
theorem C7_transcribe_failfast_witness :
    (Transcribe false [(1 : ℚ)] "en" ⟨0, [], 0⟩).1.success = false ∧
    (Transcribe false [(1 : ℚ)] "en" ⟨0, [], 0⟩).1.error_message ≠ "" ∧
    (Transcribe false [(1 : ℚ)] "en" ⟨0, [], 0⟩).2 = false :=
  C7_transcribe_failfast false [(1 : ℚ)] "en" ⟨0, [], 0⟩ (Or.inl rfl)

/-! ## WhisperTranscription job engine (whisper_transcription.cpp / .h)

`std::map<std::string, V>` is modelled as an association list with
insert-or-assign, single-entry erase and key lookup; `m_transcriptionQueue`
(a queue of `shared_ptr<TranscriptionJob>`) is modelled as the list of queued
job ids, resolved through `m_activeJobs`.  `generateJobId()` (clock +
random) is modelled by passing the generated id as an argument.  The
clock-derived `elapsedTime` / `estimatedRemainingTime` fields are omitted. -/

inductive JobStatus where
  | QUEUED | PROCESSING | COMPLETED | ERROR | CANCELLED
deriving DecidableEq, Repr

structure TranscriptionResultT where
  text : String := ""
  language : String := ""
  duration : ℚ := 0
  confidence : ℚ := 0
  processingTime : ℚ := 0
deriving DecidableEq, Repr

structure TranscriptionProgressT where
  id : String := ""
  status : JobStatus := .QUEUED
  progress : ℚ := 0
  currentPhase : String := ""
  result : TranscriptionResultT := {}
  errorMessage : String := ""
deriving DecidableEq, Repr

structure TranscriptionJobT where
  id : String := ""
  audioData : List ℚ := []
  filePath : String := ""
  sampleRate : ℕ := 16000
  progress : TranscriptionProgressT := {}
deriving DecidableEq, Repr

/-- `std::map<std::string, V>` as an association list with unique keys
maintained by `insert`. -/
def AMap (V : Type) : Type := List (String × V)

instance (V : Type) : Inhabited (AMap V) := ⟨([] : List (String × V))⟩

def AMap.find? {V : Type} : AMap V → String → Option V
  | [], _ => none
  | (k', v) :: rest, k => if k' = k then some v else AMap.find? rest k

def AMap.insert {V : Type} : AMap V → String → V → AMap V
  | [], k, v => [(k, v)]
  | (k', v') :: rest, k, v =>
    if k' = k then (k, v) :: rest else (k', v') :: AMap.insert rest k v

def AMap.erase {V : Type} : AMap V → String → AMap V
  | [], _ => []
  | (k', v') :: rest, k => if k' = k then rest else (k', v') :: AMap.erase rest k

def AMap.size {V : Type} (m : AMap V) : ℕ := m.length

/-- Declared `constexpr size_t MAX_COMPLETED_JOBS = 100` in
whisper_transcription.cpp (line 66); nothing in the file uses it. -/
def MAX_COMPLETED_JOBS : ℕ := 100

structure SchedulerState where
  transcriptionQueue : List String := []
  activeJobs : AMap TranscriptionJobT := []
  completedJobs : AMap TranscriptionProgressT := []

/-- `WhisperTranscription::queueTranscription` (lines 365-386): build the job,
push it on the pending queue, record it in the active map.  The generated id
is an argument. -/
def queueTranscription (st : SchedulerState) (jobId : String)
    (audioData : List ℚ) (sampleRate : ℕ) : SchedulerState :=
  let job : TranscriptionJobT :=
    { id := jobId, audioData := audioData, sampleRate := sampleRate,
      progress := { id := jobId, status := .QUEUED, progress := 0 } }
  { st with transcriptionQueue := st.transcriptionQueue ++ [jobId],
            activeJobs := st.activeJobs.insert jobId job }

/-- `WhisperTranscription::updateProgress` (lines 698-719): only affects jobs
still in the active map; marks them PROCESSING. -/
def updateProgress (st : SchedulerState) (jobId : String) (progress : ℚ)
    (phase : String) : SchedulerState :=
  match st.activeJobs.find? jobId with
  | none => st
  | some job =>
    let newProg : TranscriptionProgressT :=
      { job.progress with progress := progress,
                          currentPhase := phase,
                          status := .PROCESSING }
    { st with activeJobs :=
        st.activeJobs.insert jobId { job with progress := newProg } }

/-- `WhisperTranscription::completeJob` (lines 721-748): mark COMPLETED and
move the progress from the active map into the completed map.  No eviction of
any kind is performed. -/
def completeJob (st : SchedulerState) (jobId : String)
    (result : TranscriptionResultT) : SchedulerState :=
  match st.activeJobs.find? jobId with
  | none => st
  | some job =>
    let prog := { job.progress with status := .COMPLETED,
                                    progress := 1,
                                    result := result,
                                    currentPhase := "Completed" }
    { st with completedJobs := st.completedJobs.insert jobId prog,
              activeJobs := st.activeJobs.erase jobId }

/-- `WhisperTranscription::failJob` (lines 750-774). -/
def failJob (st : SchedulerState) (jobId : String) (error : String) :
    SchedulerState :=
  match st.activeJobs.find? jobId with
  | none => st
  | some job =>
    let prog := { job.progress with status := .ERROR,
                                    errorMessage := error,
                                    currentPhase := "Error" }
    { st with completedJobs := st.completedJobs.insert jobId prog,
              activeJobs := st.activeJobs.erase jobId }

/-- `WhisperTranscription::getTranscriptionProgress` (lines 388-409):
completed first, then active, else an ERROR stub with "Job not found". -/
def getTranscriptionProgress (st : SchedulerState) (jobId : String) :
    TranscriptionProgressT :=
  match st.completedJobs.find? jobId with
  | some p => p
  | none =>
    match st.activeJobs.find? jobId with
    | some job => job.progress
    | none => { id := jobId, status := .ERROR, errorMessage := "Job not found" }

/-- The dequeue step of `WhisperTranscription::workerThread` (lines 567-588):
pop the front job, if any, and report "Starting transcription" through
`updateProgress` (which marks it PROCESSING). -/
def workerClaim (st : SchedulerState) : SchedulerState :=
  match st.transcriptionQueue with
  | [] => st
  | jobId :: rest =>
    updateProgress { st with transcriptionQueue := rest } jobId 0
      "Starting transcription"

/-- Modelled from the spec: `WhisperTranscription::cancelTranscription` is
declared in whisper_transcription.h (line 145) and registered in
whisper_binding.cpp, but no definition exists anywhere in the sources (the
binding method is a placeholder returning `undefined`).  Per spec section 4.7
it is "only effective if job is still Queued (removes from pending queue,
marks Cancelled); returns false/no-op if already Processing or terminal",
and per the section 3 job lifecycle a job entering a terminal state moves
into the completed-history map. -/
def cancelTranscription (st : SchedulerState) (jobId : String) :
    Bool × SchedulerState :=
  match st.activeJobs.find? jobId with
  | none => (false, st)
  | some job =>
    if job.progress.status = .QUEUED then
      (true,
        { st with
          transcriptionQueue := st.transcriptionQueue.filter (fun j => ¬ j = jobId),
          activeJobs := st.activeJobs.erase jobId,
          completedJobs := st.completedJobs.insert jobId
            { job.progress with status := .CANCELLED } })
    else (false, st)

/-- The client/worker operations of the job engine. -/
inductive SchedOp where
  | enqueue (jobId : String) (audioData : List ℚ) (sampleRate : ℕ)
  | claim
  | complete (jobId : String) (result : TranscriptionResultT)
  | fail (jobId : String) (error : String)
  | cancel (jobId : String)

def runSchedOp (st : SchedulerState) (op : SchedOp) : SchedulerState :=
  match op with
  | .enqueue jobId audio rate => queueTranscription st jobId audio rate
  | .claim => workerClaim st
  | .complete jobId result => completeJob st jobId result
  | .fail jobId error => failJob st jobId error
  | .cancel jobId => (cancelTranscription st jobId).2

def runSchedOps (st : SchedulerState) (ops : List SchedOp) : SchedulerState :=
  ops.foldl runSchedOp st

theorem AMap.find?_insert_self {V : Type} (m : AMap V) (k : String) (v : V) :
    (m.insert k v).find? k = some v := by
  induction m with
  | nil => simp [AMap.insert, AMap.find?]
  | cons kv rest ih =>
    obtain ⟨k', v'⟩ := kv
    simp only [AMap.insert]
    split_ifs with h
    · simp [AMap.find?]
    · simp only [AMap.find?, if_neg h]
      exact ih

theorem AMap.find?_insert_ne {V : Type} (m : AMap V) (k : String) (v : V)
    (k' : String) (h : ¬ k = k') :
    (m.insert k v).find? k' = m.find? k' := by
  induction m with
  | nil => simp [AMap.insert, AMap.find?, h]
  | cons kv rest ih =>
    obtain ⟨k0, v0⟩ := kv
    simp only [AMap.insert]
    split_ifs with h0
    · subst h0
      simp only [AMap.find?, if_neg h]
    · simp only [AMap.find?]
      split_ifs with h1
      · rfl
      · exact ih

theorem AMap.find?_erase_none {V : Type} (m : AMap V) (k k' : String)
    (h : m.find? k' = none) : (m.erase k).find? k' = none := by
  induction m with
  | nil => simp [AMap.erase, AMap.find?]
  | cons kv rest ih =>
    obtain ⟨k0, v0⟩ := kv
    simp only [AMap.find?] at h
    split_ifs at h with h0
    simp only [AMap.erase]
    split_ifs with h1
    · exact h
    · simp only [AMap.find?, if_neg h0]
      exact ih h

theorem AMap.find?_eq_none_of_not_mem_keys {V : Type} (m : AMap V) (k : String)
    (h : ¬ k ∈ m.map Prod.fst) : m.find? k = none := by
  induction m with
  | nil => simp [AMap.find?]
  | cons kv rest ih =>
    obtain ⟨k0, v0⟩ := kv
    simp only [List.map_cons, List.mem_cons] at h
    push_neg at h
    have hne : ¬ k0 = k := fun hc => h.1 hc.symm
    simp only [AMap.find?, if_neg hne]
    exact ih h.2

theorem AMap.find?_erase_self_of_nodup {V : Type} (m : AMap V) (k : String)
    (h : (m.map Prod.fst).Nodup) : (m.erase k).find? k = none := by
  induction m with
  | nil => simp [AMap.erase, AMap.find?]
  | cons kv rest ih =>
    obtain ⟨k0, v0⟩ := kv
    simp only [List.map_cons, List.nodup_cons] at h
    simp only [AMap.erase]
    split_ifs with h0
    · subst h0
      exact AMap.find?_eq_none_of_not_mem_keys rest k0 h.1
    · simp only [AMap.find?, if_neg h0]
      exact ih h.2

/-- C8: `getTranscriptionProgress` is a total lookup (it cannot throw for any
job id): it returns the completed-history entry when present, else the active
job's progress, else an ERROR stub carrying "Job not found" and the requested
id. -/
theorem C8_getProgress_total (st : SchedulerState) (jobId : String) :
    (∀ p, st.completedJobs.find? jobId = some p →
      getTranscriptionProgress st jobId = p) ∧
    (st.completedJobs.find? jobId = none →
      ∀ job, st.activeJobs.find? jobId = some job →
        getTranscriptionProgress st jobId = job.progress) ∧
    (st.completedJobs.find? jobId = none →
      st.activeJobs.find? jobId = none →
      (getTranscriptionProgress st jobId).status = JobStatus.ERROR ∧
      (getTranscriptionProgress st jobId).errorMessage = "Job not found" ∧
      (getTranscriptionProgress st jobId).id = jobId) := by
  refine ⟨?_, ?_, ?_⟩
  · intro p hp
    simp [getTranscriptionProgress, hp]
  · intro hc job ha
    simp [getTranscriptionProgress, hc, ha]
  · intro hc ha
    simp [getTranscriptionProgress, hc, ha]

/-- Witness for C8: lookup of an unknown id on the empty engine state. -/
theorem C8_getProgress_total_witness :
    (getTranscriptionProgress {} "nope").status = JobStatus.ERROR ∧
    (getTranscriptionProgress {} "nope").errorMessage = "Job not found" ∧
    (getTranscriptionProgress {} "nope").id = "nope" :=
  (C8_getProgress_total {} "nope").2.2 rfl rfl

/-- The scenario for C2: queue, claim and complete `n` jobs with distinct ids
through the engine operations, starting from the empty state. -/
def c2Trace (n : ℕ) : SchedulerState :=
  (List.range n).foldl
    (fun st i =>
      completeJob (workerClaim (queueTranscription st ("job" ++ toString i) [] 16000))
        ("job" ++ toString i) {})
    {}

set_option maxRecDepth 4000 in
/-- C2 is a code bug: `completeJob`/`failJob` never evict anything, although
`MAX_COMPLETED_JOBS = 100` is declared; after completing 101 jobs the
completed-history map holds 101 entries, exceeding the documented bound. -/
theorem C2_history_unbounded :
    MAX_COMPLETED_JOBS = 100 ∧
    (c2Trace (MAX_COMPLETED_JOBS + 1)).completedJobs.size =
      MAX_COMPLETED_JOBS + 1 := by
  constructor
  · rfl
  · rfl

/-- After a successful cancellation the job sits in the completed-history map
as CANCELLED and is gone from the pending queue and the active map. -/
def CancelledInv (st : SchedulerState) (jobId : String) : Prop :=
  (∃ p, st.completedJobs.find? jobId = some p ∧ p.status = JobStatus.CANCELLED) ∧
  st.activeJobs.find? jobId = none ∧
  jobId ∉ st.transcriptionQueue

theorem updateProgress_none (st : SchedulerState) (jobId : String)
    (progress : ℚ) (phase : String) (h : st.activeJobs.find? jobId = none) :
    updateProgress st jobId progress phase = st := by
  unfold updateProgress
  rw [h]

theorem updateProgress_some (st : SchedulerState) (jobId : String)
    (progress : ℚ) (phase : String) (job : TranscriptionJobT)
    (h : st.activeJobs.find? jobId = some job) :
    updateProgress st jobId progress phase =
      { st with activeJobs := st.activeJobs.insert jobId ({ job with progress :=
          { job.progress with progress := progress,
                              currentPhase := phase,
                              status := JobStatus.PROCESSING } }) } := by
  unfold updateProgress
  rw [h]

theorem completeJob_none (st : SchedulerState) (jobId : String)
    (result : TranscriptionResultT) (h : st.activeJobs.find? jobId = none) :
    completeJob st jobId result = st := by
  unfold completeJob
  rw [h]

theorem completeJob_some (st : SchedulerState) (jobId : String)
    (result : TranscriptionResultT) (job : TranscriptionJobT)
    (h : st.activeJobs.find? jobId = some job) :
    completeJob st jobId result =
      { st with completedJobs := st.completedJobs.insert jobId ({ job.progress with
                  status := JobStatus.COMPLETED,
                  progress := 1,
                  result := result,
                  currentPhase := "Completed" }),
                activeJobs := st.activeJobs.erase jobId } := by
  unfold completeJob
  rw [h]

theorem failJob_none (st : SchedulerState) (jobId : String) (error : String)
    (h : st.activeJobs.find? jobId = none) : failJob st jobId error = st := by
  unfold failJob
  rw [h]

theorem failJob_some (st : SchedulerState) (jobId : String) (error : String)
    (job : TranscriptionJobT) (h : st.activeJobs.find? jobId = some job) :
    failJob st jobId error =
      { st with completedJobs := st.completedJobs.insert jobId ({ job.progress with
                  status := JobStatus.ERROR,
                  errorMessage := error,
                  currentPhase := "Error" }),
                activeJobs := st.activeJobs.erase jobId } := by
  unfold failJob
  rw [h]

theorem cancelTranscription_none (st : SchedulerState) (jobId : String)
    (h : st.activeJobs.find? jobId = none) :
    cancelTranscription st jobId = (false, st) := by
  unfold cancelTranscription
  rw [h]

theorem cancelTranscription_queued (st : SchedulerState) (jobId : String)
    (job : TranscriptionJobT) (h : st.activeJobs.find? jobId = some job)
    (hs : job.progress.status = JobStatus.QUEUED) :
    cancelTranscription st jobId =
      (true,
        { st with
          transcriptionQueue := st.transcriptionQueue.filter (fun j => ¬ j = jobId),
          activeJobs := st.activeJobs.erase jobId,
          completedJobs := st.completedJobs.insert jobId
            { job.progress with status := JobStatus.CANCELLED } }) := by
  unfold cancelTranscription
  rw [h]
  simp only [if_pos hs]

theorem cancelTranscription_not_queued (st : SchedulerState) (jobId : String)
    (job : TranscriptionJobT) (h : st.activeJobs.find? jobId = some job)
    (hs : ¬ job.progress.status = JobStatus.QUEUED) :
    cancelTranscription st jobId = (false, st) := by
  unfold cancelTranscription
  rw [h]
  simp only [if_neg hs]

theorem workerClaim_nil (st : SchedulerState) (h : st.transcriptionQueue = []) :
    workerClaim st = st := by
  unfold workerClaim
  rw [h]

theorem workerClaim_cons (st : SchedulerState) (jobId : String)
    (rest : List String) (h : st.transcriptionQueue = jobId :: rest) :
    workerClaim st =
      updateProgress { st with transcriptionQueue := rest } jobId 0
        "Starting transcription" := by
  unfold workerClaim
  rw [h]

theorem CancelledInv_runSchedOp (st : SchedulerState) (jobId : String)
    (op : SchedOp) (hinv : CancelledInv st jobId)
    (hop : ∀ audio rate, op ≠ SchedOp.enqueue jobId audio rate) :
    CancelledInv (runSchedOp st op) jobId := by
  obtain ⟨⟨p, hp, hps⟩, ha, hq⟩ := hinv
  match op with
  | .enqueue jobId' audio rate =>
    have hne : ¬ jobId' = jobId := fun hcon => hop audio rate (by rw [hcon])
    refine ⟨⟨p, hp, hps⟩, ?_, ?_⟩
    · show (st.activeJobs.insert jobId' _).find? jobId = none
      rw [AMap.find?_insert_ne _ _ _ _ hne]
      exact ha
    · show jobId ∉ st.transcriptionQueue ++ [jobId']
      simp only [List.mem_append, List.mem_singleton]
      push_neg
      exact ⟨hq, fun hcon => hne hcon.symm⟩
  | .claim =>
    show CancelledInv (workerClaim st) jobId
    match hqq : st.transcriptionQueue with
    | [] =>
      rw [workerClaim_nil st hqq]
      exact ⟨⟨p, hp, hps⟩, ha, hq⟩
    | jobId' :: rest =>
      rw [hqq, List.mem_cons] at hq
      push_neg at hq
      rw [workerClaim_cons st jobId' rest hqq]
      match hfind : AMap.find?
          (SchedulerState.activeJobs { st with transcriptionQueue := rest })
          jobId' with
      | none =>
        rw [updateProgress_none _ _ _ _ hfind]
        exact ⟨⟨p, hp, hps⟩, ha, hq.2⟩
      | some job =>
        rw [updateProgress_some _ _ _ _ job hfind]
        refine ⟨⟨p, hp, hps⟩, ?_, hq.2⟩
        show (st.activeJobs.insert jobId' _).find? jobId = none
        rw [AMap.find?_insert_ne _ _ _ _ (fun hcon => hq.1 hcon.symm)]
        exact ha
  | .complete jobId' result =>
    show CancelledInv (completeJob st jobId' result) jobId
    match hfind : st.activeJobs.find? jobId' with
    | none =>
      rw [completeJob_none _ _ _ hfind]
      exact ⟨⟨p, hp, hps⟩, ha, hq⟩
    | some job =>
      have hne : ¬ jobId' = jobId := by
        intro hcon
        rw [hcon, ha] at hfind
        exact Option.noConfusion hfind
      rw [completeJob_some _ _ _ job hfind]
      refine ⟨⟨p, ?_, hps⟩, ?_, hq⟩
      · show (st.completedJobs.insert jobId' _).find? jobId = some p
        rw [AMap.find?_insert_ne _ _ _ _ hne]
        exact hp
      · show (st.activeJobs.erase jobId').find? jobId = none
        exact AMap.find?_erase_none _ _ _ ha
  | .fail jobId' error =>
    show CancelledInv (failJob st jobId' error) jobId
    match hfind : st.activeJobs.find? jobId' with
    | none =>
      rw [failJob_none _ _ _ hfind]
      exact ⟨⟨p, hp, hps⟩, ha, hq⟩
    | some job =>
      have hne : ¬ jobId' = jobId := by
        intro hcon
        rw [hcon, ha] at hfind
        exact Option.noConfusion hfind
      rw [failJob_some _ _ _ job hfind]
      refine ⟨⟨p, ?_, hps⟩, ?_, hq⟩
      · show (st.completedJobs.insert jobId' _).find? jobId = some p
        rw [AMap.find?_insert_ne _ _ _ _ hne]
        exact hp
      · show (st.activeJobs.erase jobId').find? jobId = none
        exact AMap.find?_erase_none _ _ _ ha
  | .cancel jobId' =>
    show CancelledInv (cancelTranscription st jobId').2 jobId
    match hfind : st.activeJobs.find? jobId' with
    | none =>
      rw [cancelTranscription_none _ _ hfind]
      exact ⟨⟨p, hp, hps⟩, ha, hq⟩
    | some job =>
      have hne : ¬ jobId' = jobId := by
        intro hcon
        rw [hcon, ha] at hfind
        exact Option.noConfusion hfind
      by_cases hstat : job.progress.status = JobStatus.QUEUED
      · rw [cancelTranscription_queued _ _ job hfind hstat]
        refine ⟨⟨p, ?_, hps⟩, ?_, ?_⟩
        · show (st.completedJobs.insert jobId' _).find? jobId = some p
          rw [AMap.find?_insert_ne _ _ _ _ hne]
          exact hp
        · show (st.activeJobs.erase jobId').find? jobId = none
          exact AMap.find?_erase_none _ _ _ ha
        · show jobId ∉ st.transcriptionQueue.filter (fun j => ¬ j = jobId')
          intro hcon
          exact hq (List.mem_of_mem_filter hcon)
      · rw [cancelTranscription_not_queued _ _ job hfind hstat]
        exact ⟨⟨p, hp, hps⟩, ha, hq⟩

theorem CancelledInv_runSchedOps : ∀ (ops : List SchedOp) (st : SchedulerState)
    (jobId : String), CancelledInv st jobId →
    (∀ op ∈ ops, ∀ audio rate, op ≠ SchedOp.enqueue jobId audio rate) →
    CancelledInv (runSchedOps st ops) jobId
  | [], _, _, hinv, _ => hinv
  | op :: ops, st, jobId, hinv, hops =>
    CancelledInv_runSchedOps ops (runSchedOp st op) jobId
      (CancelledInv_runSchedOp st jobId op hinv (hops op (List.mem_cons_self op ops)))
      (fun o ho => hops o (List.mem_cons_of_mem op ho))

theorem CancelledInv_status (st : SchedulerState) (jobId : String)
    (hinv : CancelledInv st jobId) :
    (getTranscriptionProgress st jobId).status = JobStatus.CANCELLED := by
  obtain ⟨⟨p, hp, hps⟩, _, _⟩ := hinv
  unfold getTranscriptionProgress
  rw [hp]
  exact hps

/-- C3 (modelled from the spec, see `cancelTranscription`): cancellation
succeeds exactly when the job is still QUEUED; on failure (job Processing,
terminal, or unknown) nothing changes; on success the job leaves the pending
queue, its status becomes CANCELLED, and it stays CANCELLED (in particular it
is never Processing) across every subsequent sequence of engine operations
that does not re-enqueue the same id.  The active map of the starting state
is assumed to have distinct keys, as every reachable state does. -/
theorem C3_cancel_only_queued (st : SchedulerState) (jobId : String)
    (hkeys : (st.activeJobs.map Prod.fst).Nodup) :
    ((cancelTranscription st jobId).1 = true ↔
      ∃ job, st.activeJobs.find? jobId = some job ∧
        job.progress.status = JobStatus.QUEUED) ∧
    ((cancelTranscription st jobId).1 = false →
      (cancelTranscription st jobId).2 = st) ∧
    ((cancelTranscription st jobId).1 = true →
      jobId ∉ (cancelTranscription st jobId).2.transcriptionQueue ∧
      ∀ ops : List SchedOp,
        (∀ op ∈ ops, ∀ audio rate, op ≠ SchedOp.enqueue jobId audio rate) →
        (getTranscriptionProgress
            (runSchedOps (cancelTranscription st jobId).2 ops) jobId).status =
          JobStatus.CANCELLED) := by
  match hfind : st.activeJobs.find? jobId with
  | none =>
    rw [cancelTranscription_none _ _ hfind]
    refine ⟨?_, fun _ => rfl, ?_⟩
    · simp [hfind]
    · intro hcon
      exact Bool.noConfusion hcon
  | some job =>
    by_cases hstat : job.progress.status = JobStatus.QUEUED
    · rw [cancelTranscription_queued _ _ job hfind hstat]
      refine ⟨?_, ?_, ?_⟩
      · exact ⟨fun _ => ⟨job, rfl, hstat⟩, fun _ => rfl⟩
      · intro hcon
        exact Bool.noConfusion hcon
      · intro _
        have hbase : CancelledInv
            { st with
              transcriptionQueue :=
                st.transcriptionQueue.filter (fun j => ¬ j = jobId),
              activeJobs := st.activeJobs.erase jobId,
              completedJobs := st.completedJobs.insert jobId
                { job.progress with status := JobStatus.CANCELLED } } jobId := by
          refine ⟨⟨{ job.progress with status := JobStatus.CANCELLED },
            AMap.find?_insert_self _ _ _, rfl⟩, ?_, ?_⟩
          · exact AMap.find?_erase_self_of_nodup _ _ hkeys
          · simp [List.mem_filter]
        refine ⟨?_, ?_⟩
        · show jobId ∉ st.transcriptionQueue.filter (fun j => ¬ j = jobId)
          simp [List.mem_filter]
        · intro ops hops
          exact CancelledInv_status _ _
            (CancelledInv_runSchedOps ops _ jobId hbase hops)
    · rw [cancelTranscription_not_queued _ _ job hfind hstat]
      refine ⟨?_, fun _ => rfl, ?_⟩
      · constructor
        · intro hcon
          exact Bool.noConfusion hcon
        · intro hcon
          obtain ⟨job', hj', hs'⟩ := hcon
          obtain rfl : job = job' := Option.some.inj hj'
          exact absurd hs' hstat
      · intro hcon
        exact Bool.noConfusion hcon

/-- Witness for C3: cancel a freshly queued job and observe it stays
CANCELLED. -/
theorem C3_cancel_only_queued_witness :
    (cancelTranscription (queueTranscription {} "a" [] 16000) "a").1 = true ∧
    (getTranscriptionProgress
        (runSchedOps
          (cancelTranscription (queueTranscription {} "a" [] 16000) "a").2 [])
        "a").status = JobStatus.CANCELLED := by
  have h := C3_cancel_only_queued (queueTranscription {} "a" [] 16000) "a"
    (by decide)
  have htrue : (cancelTranscription (queueTranscription {} "a" [] 16000) "a").1
      = true := by decide
  exact ⟨htrue, (h.2.2 htrue).2 [] (by intro op ho; cases ho)⟩

/-! ## WASAPIRecorder::processAudioData (wasapi_recorder.cpp, lines 361-411)

The DSP pipeline (`applyAudioProcessing`) and the VAD decision
(`detectVoiceActivity`) both involve `sqrt` over machine floats, so they are
abstracted as function parameters `proc` and `vad`; everything the claim
talks about — the silent-frame conversion, the queue storage with
oldest-frame eviction, and the callback gating — is embedded directly. -/

structure AudioBuffer where
  samples : List ℚ
  timestamp : ℚ
  channelCount : ℕ
  sampleRate : ℕ
  frameCount : ℕ
deriving DecidableEq

structure RecorderState where
  audioQueue : List AudioBuffer := []
  maxQueueSize : ℕ := 100
  sampleRate : ℕ := 44100
  hasAudioDataCallback : Bool := false

/-- The conversion step of `processAudioData`: zero samples when the backend
reported a silent packet, otherwise PCM16 → float via `pcmData[i] / 32768`. -/
def convertSamples (pcmData : List ℤ) (sampleCount : ℕ) (silence : Bool) :
    List ℚ :=
  if silence then List.replicate sampleCount 0
  else (pcmData.take sampleCount).map (fun v => (v : ℚ) / 32768)

/-- `WASAPIRecorder::processAudioData(data, frameCount, silence)`.  Returns
the new state and whether the audio-data observer was invoked. -/
def processAudioData (proc : List ℚ → List ℚ) (vad : List ℚ → Bool)
    (st : RecorderState) (pcmData : List ℤ) (frameCount channelCount : ℕ)
    (silence : Bool) (timestamp : ℚ) : RecorderState × Bool :=
  let sampleCount := frameCount * channelCount
  let samples := proc (convertSamples pcmData sampleCount silence)
  let voiceDetected := vad samples
  let buffer : AudioBuffer :=
    { samples := samples, timestamp := timestamp,
      channelCount := channelCount, sampleRate := st.sampleRate,
      frameCount := frameCount }
  let newQueue :=
    if st.audioQueue.length ≥ st.maxQueueSize then
      st.audioQueue.tail ++ [buffer]
    else st.audioQueue ++ [buffer]
  ({ st with audioQueue := newQueue }, st.hasAudioDataCallback && voiceDetected)

/-- C9: every captured frame is stored in the output queue (as its newest
element, evicting the oldest frame when the queue is full) regardless of the
VAD decision, while the audio-data observer fires exactly when a callback is
registered and VAD reports voice — for every DSP pipeline and VAD function. -/
theorem C9_vad_gates_callback_only (proc : List ℚ → List ℚ)
    (vad : List ℚ → Bool) (st : RecorderState) (pcmData : List ℤ)
    (frameCount channelCount : ℕ) (silence : Bool) (timestamp : ℚ) :
    (processAudioData proc vad st pcmData frameCount channelCount silence
        timestamp).1.audioQueue.getLast? =
      some { samples := proc (convertSamples pcmData
                (frameCount * channelCount) silence),
             timestamp := timestamp, channelCount := channelCount,
             sampleRate := st.sampleRate, frameCount := frameCount } ∧
    (processAudioData proc vad st pcmData frameCount channelCount silence
        timestamp).1.audioQueue.length =
      (if st.audioQueue.length ≥ st.maxQueueSize then
        st.audioQueue.tail.length else st.audioQueue.length) + 1 ∧
    (processAudioData proc vad st pcmData frameCount channelCount silence
        timestamp).2 =
      (st.hasAudioDataCallback &&
        vad (proc (convertSamples pcmData (frameCount * channelCount)
          silence))) := by
  refine ⟨?_, ?_, rfl⟩
  · show (if st.audioQueue.length ≥ st.maxQueueSize then
        st.audioQueue.tail ++ [_] else st.audioQueue ++ [_]).getLast? = _
    split_ifs <;> rw [List.getLast?_concat]
  · show (if st.audioQueue.length ≥ st.maxQueueSize then
        st.audioQueue.tail ++ [_] else st.audioQueue ++ [_]).length = _
    split_ifs with h <;> simp [h]
